import Mathlib

/-!
Shallow embedding of the film-roll tool (`src/app.py`) and verification of
its specification claims.

Modelling conventions:
* Python floats are modelled as exact rationals (`ℚ`); the rounding of
  individual IEEE-754 operations is not modelled.
* `math.pi` is the IEEE-754 double that Python exposes, whose exact value
  is 884279719003555 / 2^48; it is modelled by that exact rational.
* Python `int(x)` on a float truncates toward zero; it is modelled by
  `pyTrunc`.
* Python's `ZeroDivisionError` (the only arithmetic exception reachable in
  exact arithmetic) is modelled by `pyDiv` returning `Except`; the
  `try/except` of the source maps every error to `0`.
* A possibly-missing (`None`) argument is modelled by `Option ℚ`.
* pandas `DataFrame`s are modelled as lists of records; a missing (`NaN`)
  cell in a key column is modelled by `Option`.
-/

namespace FilmRollTool

/-- Exact value of the IEEE-754 double `math.pi` used by the source
(`import math`, line 105 of `app.py`): 884279719003555 / 2^48. -/
def mathPi : ℚ := 884279719003555 / 281474976710656

/-- Python `int()` applied to a (modelled) float: truncation toward zero. -/
def pyTrunc (x : ℚ) : ℤ := if 0 ≤ x then ⌊x⌋ else ⌈x⌉

/-- Python float division: raises `ZeroDivisionError` on a zero divisor,
modelled as `Except.error ()`. -/
def pyDiv (a b : ℚ) : Except Unit ℚ :=
  if b = 0 then Except.error () else Except.ok (a / b)

/-- Body of the `try:` block of `calc_labels_per_roll`
(`app.py` lines 104-109):
`film_length_m = math.pi * (((roll/100)**2 - (core/100)**2) / (4*(thickness/1000)))`,
`sets = film_length_m / (mark_set/100)`,
`labels = int(sets) * int(labels_per_set)`; `return int(labels)`. -/
def calcTry (thickness_mm roll_diam_cm core_diam_cm mark_set_cm labels_per_set : ℚ) :
    Except Unit ℤ :=
  match pyDiv ((roll_diam_cm / 100) ^ 2 - (core_diam_cm / 100) ^ 2)
      (4 * (thickness_mm / 1000)) with
  | Except.error e => Except.error e
  | Except.ok ratio =>
    match pyDiv (mathPi * ratio) (mark_set_cm / 100) with
    | Except.error e => Except.error e
    | Except.ok sets => Except.ok (pyTrunc sets * pyTrunc labels_per_set)

/-- The yield calculator `calc_labels_per_roll` (`app.py` lines 92-111).
Arguments are `Option ℚ` so that the `is None` guards are expressible;
the guard (lines 94-102) returns `0` on a missing or non-positive argument
or when `roll_diam_cm <= core_diam_cm`, and the `except` clause (lines
110-111) maps any arithmetic exception to `0`. -/
def calc_labels_per_roll (thickness_mm roll_diam_cm core_diam_cm mark_set_cm
    labels_per_set : Option ℚ) : ℤ :=
  match thickness_mm, roll_diam_cm, core_diam_cm, mark_set_cm, labels_per_set with
  | some t, some r, some c, some m, some l =>
    if t ≤ 0 ∨ r ≤ 0 ∨ c ≤ 0 ∨ m ≤ 0 ∨ l ≤ 0 then 0
    else if r ≤ c then 0
    else
      match calcTry t r c m l with
      | Except.ok v => v
      | Except.error _ => 0
  | _, _, _, _, _ => 0

/-- The value claimed by the specification for valid inputs:
`floor(π × ((roll/100)² − (core/100)²) / (4 × (thickness/1000)) / (mark/100)) × floor(labels_per_set)`,
written from the spec's words (with the same modelled `math.pi`). -/
def specYieldFormula (thickness_mm roll_diam_cm core_diam_cm mark_set_cm
    labels_per_set : ℚ) : ℤ :=
  ⌊mathPi * ((roll_diam_cm / 100) ^ 2 - (core_diam_cm / 100) ^ 2) /
      (4 * (thickness_mm / 1000)) / (mark_set_cm / 100)⌋ * ⌊labels_per_set⌋

/-- The filtered measurement list of `app.py` line 326:
`valid_vals = [v for v in inputs if v > 0]`. -/
def valid_vals (inputs : List ℚ) : List ℚ :=
  inputs.filter (fun v => decide (0 < v))

/-- The mean computed at `app.py` lines 328-336:
`avg = sum(valid_vals) / len(valid_vals)` when the filtered list is
non-empty (Python truthiness of a list), else `0.0`. -/
def statsAvg (inputs : List ℚ) : ℚ :=
  if valid_vals inputs = [] then 0
  else (valid_vals inputs).sum / ((valid_vals inputs).length : ℚ)

/-- The exact value of which `statistics.stdev` takes the square root:
`Σ (x − mean)² / (n − 1)` over the given list. -/
def stdevVariance (l : List ℚ) : ℚ :=
  (l.map (fun x => (x - l.sum / (l.length : ℚ)) ^ 2)).sum / ((l.length : ℚ) - 1)

/-- The standard deviation computed at `app.py` lines 328-336:
`statistics.stdev(valid_vals)` when the filtered list has more than one
element, else `0.0` (both the `len == 1` and the empty branch). -/
noncomputable def statsStdev (inputs : List ℚ) : ℝ :=
  if valid_vals inputs = [] then 0
  else if 1 < (valid_vals inputs).length then
    Real.sqrt ((stdevVariance (valid_vals inputs) : ℚ) : ℝ)
  else 0

/-- Spec-side filtered subset, from the spec's words: the values strictly
greater than 0. -/
def specFilteredVals (inputs : List ℚ) : List ℚ :=
  inputs.filter (fun v => decide (0 < v))

/-- Spec-side arithmetic mean of a subset: sum over cardinality, `0.0` when
the subset is empty. -/
def specMeanOf (l : List ℚ) : ℚ :=
  if l.length = 0 then 0 else l.sum / (l.length : ℚ)

/-- Spec-side Bessel-corrected sample variance, written in the expanded
textbook form `(n·Σx² − (Σx)²) / (n·(n−1))` so that agreement with the
source's `Σ(x − mean)²/(n−1)` is a genuine algebraic fact. -/
def specSampleVariance (l : List ℚ) : ℚ :=
  ((l.length : ℚ) * (l.map (fun x => x ^ 2)).sum - l.sum ^ 2) /
    ((l.length : ℚ) * ((l.length : ℚ) - 1))

/-- Spec-side sample standard deviation: Bessel-corrected for at least two
elements, `0.0` for zero or one element. -/
noncomputable def specSampleStdev (l : List ℚ) : ℝ :=
  if 2 ≤ l.length then Real.sqrt ((specSampleVariance l : ℚ) : ℝ) else 0

/-- A row of the film-config table `film_config.csv` (`app.py` lines 47-51
and 200-207).  The Korean column headers 품번, 품명, 필름두께_mm,
지관외경_cm, 아이마크세트길이_cm, 세트당라벨수 are transliterated to the
spec's field names. -/
structure FilmConfig where
  part_number : String
  part_name : String
  film_thickness_mm : ℚ
  core_outer_diameter_cm : ℚ
  eye_mark_set_length_cm : ℚ
  labels_per_set : ℤ
deriving DecidableEq

/-- The config-save upsert of `app.py` lines 209-215: when rows whose 품번
equals the selected part number exist, `config_df.loc[idx, :] = new_row`
assigns the new record to every matching row in place (`idx` is the whole
matching index); otherwise `pd.concat` appends the new row at the end. -/
def save_config_upsert (table : List FilmConfig) (entry : FilmConfig) :
    List FilmConfig :=
  if table.any (fun row => row.part_number == entry.part_number) then
    table.map (fun row =>
      if row.part_number == entry.part_number then entry else row)
  else table ++ [entry]

/-- A row of the film-thickness table `film_thickness.csv` (`app.py` lines
68-74 and 343-358): part number, part name, vendor (거래처), the nine
measurements, and the derived mean (평균) and stdev (표준편차). -/
structure ThicknessRecord where
  part_number : String
  part_name : String
  vendor : String
  measurements : List ℚ
  mean : ℚ
  stdev : ℝ

/-- The vendor resolution of `app.py` lines 279-298: the text input defaults
to the entered string (default `""`); when a stored record for the part
number exists and the entered vendor is falsy (the empty string), the
previously stored vendor is used instead. -/
def resolveVendor (existing : Option ThicknessRecord) (entered : String) :
    String :=
  match existing with
  | some prev => if entered = "" then prev.vendor else entered
  | none => entered

/-- The row `new_row_t` saved by `app.py` lines 342-358: it stores the
resolved vendor and the freshly recomputed mean and stdev of the nine
inputs. -/
noncomputable def new_row_t (pn pname : String)
    (existing : Option ThicknessRecord) (entered : String)
    (inputs : List ℚ) : ThicknessRecord :=
  { part_number := pn
    part_name := pname
    vendor := resolveVendor existing entered
    measurements := inputs
    mean := statsAvg inputs
    stdev := statsStdev inputs }

/-- A data row of the BOM sheet as read by `load_bom` (`app.py` lines
21-41): the 품번 cell may be missing (`NaN`, modelled `none`); the sheet
carries both a column headed 품명 and the secondary column headed 품명.1,
and the source reads the latter. -/
structure BomRow where
  part_no : Option String
  name_col : String
  name1_col : String

/-- pandas `drop_duplicates(subset=["품번"])` with the default
`keep="first"`, over (part number, part name) pairs keyed by the first
component, with `seen` the keys already emitted. -/
def dropDuplicatesFirst (seen : List String) :
    List (String × String) → List (String × String)
  | [] => []
  | (p, n) :: rest =>
    if p ∈ seen then dropDuplicatesFirst seen rest
    else (p, n) :: dropDuplicatesFirst (p :: seen) rest

/-- The row pipeline of `load_bom` (`app.py` lines 38-41): select the 품번
and 품명.1 columns, `dropna(subset=["품번"])`, drop duplicate part numbers
keeping the first occurrence, and rename 품명.1 to 품명. -/
def load_bom_rows (rows : List BomRow) : List (String × String) :=
  dropDuplicatesFirst []
    (rows.filterMap (fun row => row.part_no.map (fun p => (p, row.name1_col))))

/-- The possible states of the BOM source for `load_bom` (`app.py` lines
21-36): the file may be absent (`os.path.exists` false), `pd.read_excel`
may raise, or it yields a sheet whose header may or may not contain the
required 품번 and 품명.1 columns. -/
inductive BomSource where
  | missingFile
  | readFailure
  | sheet (hasPartNoCol : Bool) (hasName1Col : Bool) (rows : List BomRow)

/-- `load_bom` (`app.py` lines 21-41): the Bool records whether a
diagnostic (`st.error`) was reported; on any failure the catalog is empty
(the empty DataFrame with the canonical 품번/품명 columns). -/
def load_bom : BomSource → Bool × List (String × String)
  | BomSource.missingFile => (true, [])
  | BomSource.readFailure => (true, [])
  | BomSource.sheet hasPart hasName1 rows =>
    if hasPart && hasName1 then (false, load_bom_rows rows)
    else (true, [])

/-! Helper lemmas about the yield calculator. -/

lemma mathPi_pos : 0 < mathPi := by norm_num [mathPi]

lemma pyTrunc_eq_floor {x : ℚ} (h : 0 ≤ x) : pyTrunc x = ⌊x⌋ := if_pos h

lemma pyTrunc_nonneg {x : ℚ} (h : 0 ≤ x) : 0 ≤ pyTrunc x := by
  rw [pyTrunc_eq_floor h]
  exact Int.floor_nonneg.mpr h

lemma calcTry_ok (t r c m l : ℚ) (ht : t ≠ 0) (hm : m ≠ 0) :
    calcTry t r c m l =
      Except.ok (pyTrunc (mathPi * (((r / 100) ^ 2 - (c / 100) ^ 2) /
        (4 * (t / 1000))) / (m / 100)) * pyTrunc l) := by
  have h1 : (4 * (t / 1000) : ℚ) ≠ 0 := by
    simp [ht]
  have h2 : (m / 100 : ℚ) ≠ 0 := by
    simp [hm]
  simp [calcTry, pyDiv, h1, h2]

lemma sets_pos {t r c m : ℚ} (ht : 0 < t) (hc : 0 < c) (hm : 0 < m) (hrc : c < r) :
    0 < mathPi * (((r / 100) ^ 2 - (c / 100) ^ 2) / (4 * (t / 1000))) / (m / 100) := by
  have hr : 0 < r := lt_trans hc hrc
  have hsq : (c / 100 : ℚ) ^ 2 < (r / 100) ^ 2 := by
    apply pow_lt_pow_left₀ _ (by linarith) (by norm_num)
    linarith
  have hB : (0:ℚ) < 4 * (t / 1000) := by linarith
  have hC : (0:ℚ) < m / 100 := by linarith
  exact div_pos (mul_pos mathPi_pos (div_pos (by linarith) hB)) hC

lemma calc_valid (t r c m l : ℚ) (ht : 0 < t) (hc : 0 < c) (hm : 0 < m)
    (hl : 0 < l) (hrc : c < r) :
    calc_labels_per_roll (some t) (some r) (some c) (some m) (some l) =
      pyTrunc (mathPi * (((r / 100) ^ 2 - (c / 100) ^ 2) /
        (4 * (t / 1000))) / (m / 100)) * pyTrunc l := by
  have hr : 0 < r := lt_trans hc hrc
  have hguard : ¬(t ≤ 0 ∨ r ≤ 0 ∨ c ≤ 0 ∨ m ≤ 0 ∨ l ≤ 0) := by
    push_neg
    exact ⟨ht, hr, hc, hm, hl⟩
  simp only [calc_labels_per_roll]
  rw [if_neg hguard, if_neg (not_le.mpr hrc), calcTry_ok t r c m l ht.ne' hm.ne']

lemma calc_zero_of_le_core (t r c m l : ℚ) (hrc : r ≤ c) :
    calc_labels_per_roll (some t) (some r) (some c) (some m) (some l) = 0 := by
  simp only [calc_labels_per_roll]
  split_ifs <;> rfl

lemma calc_nonneg (a b c d e : Option ℚ) : 0 ≤ calc_labels_per_roll a b c d e := by
  cases a <;> cases b <;> cases c <;> cases d <;> cases e <;>
    simp only [calc_labels_per_roll] <;> try exact le_refl 0
  rename_i t r c m l
  split_ifs with h1 h2
  · exact le_refl 0
  · exact le_refl 0
  · push_neg at h1 h2
    obtain ⟨ht, hr, hc, hm, hl⟩ := h1
    rw [calcTry_ok t r c m l ht.ne' hm.ne']
    exact mul_nonneg (pyTrunc_nonneg (sets_pos ht hc hm h2).le) (pyTrunc_nonneg hl.le)

/-! Claim theorems about the yield calculator. -/

/-- C1: for thickness > 0, core > 0, mark-set length > 0, labels-per-set > 0
and roll diameter > core diameter, `calc_labels_per_roll` returns
`floor(π × ((roll/100)² − (core/100)²) / (4 × (thickness/1000)) / (mark/100)) × floor(labels_per_set)`,
with the sets quotient truncated to an integer before the multiplication. -/
theorem claim_C1 (t r c m l : ℚ) (ht : 0 < t) (hc : 0 < c) (hm : 0 < m)
    (hl : 0 < l) (hrc : c < r) :
    calc_labels_per_roll (some t) (some r) (some c) (some m) (some l) =
      specYieldFormula t r c m l := by
  rw [calc_valid t r c m l ht hc hm hl hrc]
  unfold specYieldFormula
  rw [pyTrunc_eq_floor (sets_pos ht hc hm hrc).le, pyTrunc_eq_floor hl.le]
  congr 2
  ring

theorem claim_C1_witness :
    calc_labels_per_roll (some 1) (some 20) (some 10) (some 10) (some 5) =
      specYieldFormula 1 20 10 10 5 :=
  claim_C1 1 20 10 10 5 (by norm_num) (by norm_num) (by norm_num) (by norm_num)
    (by norm_num)

/-- C2: a missing (`None`) or non-positive argument, or roll diameter ≤ core
diameter, makes `calc_labels_per_roll` return 0 without raising; and any
arithmetic exception inside the `try` block also results in 0 rather than
propagating (the function is total in the model). -/
theorem claim_C2 (a b c d e : Option ℚ) :
    ((a = none ∨ b = none ∨ c = none ∨ d = none ∨ e = none ∨
      (∃ x, a = some x ∧ x ≤ 0) ∨ (∃ x, b = some x ∧ x ≤ 0) ∨
      (∃ x, c = some x ∧ x ≤ 0) ∨ (∃ x, d = some x ∧ x ≤ 0) ∨
      (∃ x, e = some x ∧ x ≤ 0) ∨
      (∃ x y, b = some x ∧ c = some y ∧ x ≤ y)) →
      calc_labels_per_roll a b c d e = 0) ∧
    (∀ t r cc m l : ℚ, a = some t → b = some r → c = some cc → d = some m →
      e = some l → calcTry t r cc m l = Except.error () →
      calc_labels_per_roll a b c d e = 0) := by
  constructor
  · intro h
    match a, b, c, d, e with
    | none, _, _, _, _ => rfl
    | some _, none, _, _, _ => rfl
    | some _, some _, none, _, _ => rfl
    | some _, some _, some _, none, _ => rfl
    | some _, some _, some _, some _, none => rfl
    | some t, some r, some cc, some m, some l =>
      simp only [calc_labels_per_roll]
      split_ifs with h1 h2
      · rfl
      · rfl
      · exfalso
        push_neg at h1 h2
        obtain ⟨ht, hr, hcc, hm, hl⟩ := h1
        rcases h with h | h | h | h | h | ⟨x, hx, hle⟩ | ⟨x, hx, hle⟩ | ⟨x, hx, hle⟩ |
          ⟨x, hx, hle⟩ | ⟨x, hx, hle⟩ | ⟨x, y, hx, hy, hle⟩
        · exact Option.some_ne_none t h
        · exact Option.some_ne_none r h
        · exact Option.some_ne_none cc h
        · exact Option.some_ne_none m h
        · exact Option.some_ne_none l h
        · rw [Option.some_inj] at hx; subst hx; linarith
        · rw [Option.some_inj] at hx; subst hx; linarith
        · rw [Option.some_inj] at hx; subst hx; linarith
        · rw [Option.some_inj] at hx; subst hx; linarith
        · rw [Option.some_inj] at hx; subst hx; linarith
        · rw [Option.some_inj] at hx hy
          subst hx; subst hy; linarith
  · intro t r cc m l ha hb hc hd he herr
    cases ha; cases hb; cases hc; cases hd; cases he
    simp only [calc_labels_per_roll]
    split_ifs with h1 h2
    · rfl
    · rfl
    · rw [herr]

theorem claim_C2_witness :
    calc_labels_per_roll none (some 20) (some 10) (some 10) (some 5) = 0 ∧
    calc_labels_per_roll (some 0) (some 20) (some 10) (some 10) (some 5) = 0 :=
  ⟨(claim_C2 none (some 20) (some 10) (some 10) (some 5)).1 (Or.inl rfl),
   (claim_C2 (some 0) (some 20) (some 10) (some 10) (some 5)).2 0 20 10 10 5
     rfl rfl rfl rfl rfl (by simp [calcTry, pyDiv])⟩

/-- C7: for all valid inputs (thickness > 0, roll > core > 0, mark-set > 0,
labels-per-set ≥ 1), `calc_labels_per_roll` is deterministic — two
evaluations on equal inputs return equal results — and its result is a
non-negative integer. -/
theorem claim_C7 (t r c m l t' r' c' m' l' : ℚ) (ht : 0 < t) (hc : 0 < c)
    (hm : 0 < m) (hl : 1 ≤ l) (hrc : c < r) (et : t' = t) (er : r' = r)
    (ec : c' = c) (em : m' = m) (el : l' = l) :
    calc_labels_per_roll (some t) (some r) (some c) (some m) (some l) =
      calc_labels_per_roll (some t') (some r') (some c') (some m') (some l') ∧
    0 ≤ calc_labels_per_roll (some t) (some r) (some c) (some m) (some l) := by
  subst et; subst er; subst ec; subst em; subst el
  exact ⟨rfl, calc_nonneg _ _ _ _ _⟩

theorem claim_C7_witness :
    calc_labels_per_roll (some 1) (some 20) (some 10) (some 10) (some 5) =
      calc_labels_per_roll (some 1) (some 20) (some 10) (some 10) (some 5) ∧
    0 ≤ calc_labels_per_roll (some 1) (some 20) (some 10) (some 10) (some 5) :=
  claim_C7 1 20 10 10 5 1 20 10 10 5 (by norm_num) (by norm_num) (by norm_num)
    (by norm_num) (by norm_num) rfl rfl rfl rfl rfl

/-- C9: `calc_labels_per_roll` is monotone non-decreasing in the roll
diameter, for fixed thickness > 0, core > 0, mark-set length > 0 and
labels-per-set ≥ 1. -/
theorem claim_C9 (t c m l d1 d2 : ℚ) (ht : 0 < t) (hc : 0 < c) (hm : 0 < m)
    (hl : 1 ≤ l) (h12 : d1 ≤ d2) :
    calc_labels_per_roll (some t) (some d1) (some c) (some m) (some l) ≤
      calc_labels_per_roll (some t) (some d2) (some c) (some m) (some l) := by
  by_cases hd1 : d1 ≤ c
  · rw [calc_zero_of_le_core t d1 c m l hd1]
    exact calc_nonneg _ _ _ _ _
  · push_neg at hd1
    have hd2 : c < d2 := lt_of_lt_of_le hd1 h12
    have hl0 : 0 < l := lt_of_lt_of_le zero_lt_one hl
    rw [calc_valid t d1 c m l ht hc hm hl0 hd1,
      calc_valid t d2 c m l ht hc hm hl0 hd2]
    rw [pyTrunc_eq_floor (sets_pos ht hc hm hd1).le,
      pyTrunc_eq_floor (sets_pos ht hc hm hd2).le, pyTrunc_eq_floor hl0.le]
    apply mul_le_mul_of_nonneg_right
    · apply Int.floor_le_floor
      have hB : (0:ℚ) < 4 * (t / 1000) := by linarith
      have hC : (0:ℚ) < m / 100 := by linarith
      have hsq : (d1 / 100 : ℚ) ^ 2 ≤ (d2 / 100) ^ 2 :=
        pow_le_pow_left₀ (by linarith) (by linarith) 2
      apply (div_le_div_iff_of_pos_right hC).mpr
      apply mul_le_mul_of_nonneg_left _ mathPi_pos.le
      apply (div_le_div_iff_of_pos_right hB).mpr
      linarith
    · exact Int.floor_nonneg.mpr hl0.le

theorem claim_C9_witness :
    calc_labels_per_roll (some 1) (some 15) (some 10) (some 10) (some 5) ≤
      calc_labels_per_roll (some 1) (some 20) (some 10) (some 10) (some 5) :=
  claim_C9 1 10 10 5 15 20 (by norm_num) (by norm_num) (by norm_num)
    (by norm_num) (by norm_num)

/-- C10: under the guard's precondition (all five inputs present and > 0,
roll diameter > core diameter) the arithmetic in `calc_labels_per_roll`
never divides by zero: the `try` body succeeds with some integer value, the
`except` branch is unreachable, and the function returns that integer. -/
theorem claim_C10 (t r c m l : ℚ) (ht : 0 < t) (hc : 0 < c) (hm : 0 < m)
    (hl : 0 < l) (hrc : c < r) :
    ∃ v : ℤ, calcTry t r c m l = Except.ok v ∧
      calc_labels_per_roll (some t) (some r) (some c) (some m) (some l) = v :=
  ⟨_, calcTry_ok t r c m l ht.ne' hm.ne', calc_valid t r c m l ht hc hm hl hrc⟩

theorem claim_C10_witness :
    ∃ v : ℤ, calcTry 1 20 10 10 5 = Except.ok v ∧
      calc_labels_per_roll (some 1) (some 20) (some 10) (some 10) (some 5) = v :=
  claim_C10 1 20 10 10 5 (by norm_num) (by norm_num) (by norm_num) (by norm_num)
    (by norm_num)

/-! Helper lemmas about the measurement statistics. -/

lemma sum_map_sub_sq (l : List ℚ) (c : ℚ) :
    (l.map (fun x => (x - c) ^ 2)).sum =
      (l.map (fun x => x ^ 2)).sum - 2 * c * l.sum + (l.length : ℚ) * c ^ 2 := by
  induction l with
  | nil => simp
  | cons a tl ih =>
    simp only [List.map_cons, List.sum_cons, List.length_cons, ih]
    push_cast
    ring

lemma stdevVariance_eq_spec (l : List ℚ) (h : 2 ≤ l.length) :
    stdevVariance l = specSampleVariance l := by
  have hn : (2:ℚ) ≤ (l.length : ℚ) := by exact_mod_cast h
  have hn0 : ((l.length : ℚ)) ≠ 0 := by linarith
  have hn1 : ((l.length : ℚ) - 1) ≠ 0 := by
    intro hcontra
    have : ((l.length : ℚ)) = 1 := by linarith
    linarith
  unfold stdevVariance specSampleVariance
  rw [sum_map_sub_sq]
  field_simp
  ring

/-- C3: for every sequence of 9 measurements, the stats computation filters
to the values strictly greater than 0, the mean is the arithmetic mean of
the filtered subset (0.0 if empty), and the stdev is the Bessel-corrected
(n−1) sample standard deviation of the filtered subset when it has at least
2 elements and 0.0 when it has 0 or 1 element. -/
theorem claim_C3 (inputs : List ℚ) (_h9 : inputs.length = 9) :
    statsAvg inputs = specMeanOf (specFilteredVals inputs) ∧
    statsStdev inputs = specSampleStdev (specFilteredVals inputs) := by
  have hfv : specFilteredVals inputs = valid_vals inputs := rfl
  constructor
  · unfold statsAvg specMeanOf
    rw [hfv]
    by_cases hvv : valid_vals inputs = []
    · simp [hvv]
    · rw [if_neg hvv, if_neg (by simpa [List.length_eq_zero] using hvv)]
  · unfold statsStdev specSampleStdev
    rw [hfv]
    by_cases hvv : valid_vals inputs = []
    · simp [hvv]
    · rw [if_neg hvv]
      by_cases hlen : 1 < (valid_vals inputs).length
      · rw [if_pos hlen, if_pos (by omega), stdevVariance_eq_spec _ (by omega)]
      · rw [if_neg hlen, if_neg (by omega)]

theorem claim_C3_witness :
    statsAvg [(14:ℚ)/100, 135/1000, 133/1000, 0, 0, 0, 0, 0, 0] =
      specMeanOf (specFilteredVals [(14:ℚ)/100, 135/1000, 133/1000, 0, 0, 0, 0, 0, 0]) ∧
    statsStdev [(14:ℚ)/100, 135/1000, 133/1000, 0, 0, 0, 0, 0, 0] =
      specSampleStdev (specFilteredVals [(14:ℚ)/100, 135/1000, 133/1000, 0, 0, 0, 0, 0, 0]) :=
  claim_C3 [(14:ℚ)/100, 135/1000, 133/1000, 0, 0, 0, 0, 0, 0] (by simp)

/-! Helper lemmas about the config-table upsert. -/

lemma countP_save_config_upsert (table : List FilmConfig) (entry : FilmConfig) :
    (save_config_upsert table entry).countP
        (fun row => row.part_number == entry.part_number) =
      max (table.countP (fun row => row.part_number == entry.part_number)) 1 := by
  unfold save_config_upsert
  by_cases hex : table.any (fun row => row.part_number == entry.part_number)
  · rw [if_pos hex, List.countP_map]
    have h1 : 0 < table.countP (fun row => row.part_number == entry.part_number) := by
      rw [List.countP_pos_iff]
      simpa [List.any_eq_true] using hex
    have hfun : ((fun row => row.part_number == entry.part_number) ∘
        (fun row => if row.part_number == entry.part_number then entry else row)) =
        fun (row : FilmConfig) => row.part_number == entry.part_number := by
      funext row
      by_cases h : row.part_number == entry.part_number <;>
        simp [Function.comp, h]
    rw [hfun]
    omega
  · rw [if_neg hex, List.countP_append]
    have h0 : table.countP (fun row => row.part_number == entry.part_number) = 0 := by
      rw [List.countP_eq_zero]
      intro a ha hpa
      exact hex (List.any_eq_true.mpr ⟨a, ha, hpa⟩)
    simp [h0]

lemma save_config_upsert_match_eq (table : List FilmConfig) (entry : FilmConfig) :
    ∀ row ∈ save_config_upsert table entry,
      row.part_number = entry.part_number → row = entry := by
  intro row hrow heq
  unfold save_config_upsert at hrow
  by_cases hex : table.any (fun r => r.part_number == entry.part_number)
  · rw [if_pos hex] at hrow
    obtain ⟨orig, _horig, hmap⟩ := List.mem_map.mp hrow
    by_cases h : orig.part_number == entry.part_number
    · rw [if_pos h] at hmap
      exact hmap.symm
    · rw [if_neg h] at hmap
      subst hmap
      exact absurd (beq_iff_eq.mpr heq) h
  · rw [if_neg hex] at hrow
    rcases List.mem_append.mp hrow with hmem | hmem
    · have hany : (table.any fun r => r.part_number == entry.part_number) = true :=
        List.any_eq_true.mpr ⟨row, hmem, by simp [heq]⟩
      exact absurd hany hex
    · simpa using hmem

/-- C4 (counterexample to the claim as stated): on a table that already
holds two rows for part number A — a state reachable because
`load_config` reads the CSV without deduplication — saving the same record
twice leaves two rows for that part number, not exactly one, because
`config_df.loc[idx, :] = new_row` rewrites every matching row. -/
theorem claim_C4_counterexample :
    ((save_config_upsert (save_config_upsert
        [{ part_number := "A", part_name := "n1", film_thickness_mm := 1,
           core_outer_diameter_cm := 9, eye_mark_set_length_cm := 11,
           labels_per_set := 5 },
         { part_number := "A", part_name := "n2", film_thickness_mm := 2,
           core_outer_diameter_cm := 9, eye_mark_set_length_cm := 11,
           labels_per_set := 5 }]
        { part_number := "A", part_name := "n3", film_thickness_mm := 3,
          core_outer_diameter_cm := 9, eye_mark_set_length_cm := 11,
          labels_per_set := 5 })
        { part_number := "A", part_name := "n3", film_thickness_mm := 3,
          core_outer_diameter_cm := 9, eye_mark_set_length_cm := 11,
          labels_per_set := 5 }).countP
      (fun row => row.part_number == "A")) ≠ 1 := by
  decide

/-- C4 (amended): provided the table holds at most one row for the entry's
part number — the invariant the data model intends — upserting the same
record twice yields exactly one row for that part number, carrying the
latest field values; and a single upsert replaces matching rows in place
(by position, via `map`) when the key exists, otherwise appends. -/
theorem claim_C4_amended (table : List FilmConfig) (entry : FilmConfig)
    (huniq : table.countP (fun row => row.part_number == entry.part_number) ≤ 1) :
    ((save_config_upsert (save_config_upsert table entry) entry).countP
        (fun row => row.part_number == entry.part_number) = 1) ∧
    (∀ row ∈ save_config_upsert (save_config_upsert table entry) entry,
        row.part_number = entry.part_number → row = entry) ∧
    ((∃ row ∈ table, row.part_number = entry.part_number) →
      save_config_upsert table entry =
        table.map (fun row =>
          if row.part_number == entry.part_number then entry else row)) ∧
    ((∀ row ∈ table, row.part_number ≠ entry.part_number) →
      save_config_upsert table entry = table ++ [entry]) := by
  refine ⟨?_, save_config_upsert_match_eq _ _, ?_, ?_⟩
  · rw [countP_save_config_upsert, countP_save_config_upsert]
    omega
  · rintro ⟨row, hrow, heq⟩
    have hany : (table.any fun r => r.part_number == entry.part_number) = true :=
      List.any_eq_true.mpr ⟨row, hrow, by simp [heq]⟩
    unfold save_config_upsert
    rw [if_pos hany]
  · intro hall
    unfold save_config_upsert
    rw [if_neg]
    intro hany
    obtain ⟨row, hrow, hpa⟩ := List.any_eq_true.mp hany
    exact hall row hrow (beq_iff_eq.mp hpa)

theorem claim_C4_witness :
    ((save_config_upsert (save_config_upsert ([] : List FilmConfig)
        { part_number := "A", part_name := "n", film_thickness_mm := 1,
          core_outer_diameter_cm := 9, eye_mark_set_length_cm := 11,
          labels_per_set := 5 })
        { part_number := "A", part_name := "n", film_thickness_mm := 1,
          core_outer_diameter_cm := 9, eye_mark_set_length_cm := 11,
          labels_per_set := 5 }).countP
      (fun row => row.part_number == "A")) = 1 :=
  (claim_C4_amended []
    { part_number := "A", part_name := "n", film_thickness_mm := 1,
      core_outer_diameter_cm := 9, eye_mark_set_length_cm := 11,
      labels_per_set := 5 } (by decide)).1

/-- C8: when a measurement record for the selected part number exists and
the supplied vendor is blank, the row stored at the next save carries the
previously stored vendor; a non-blank supplied vendor is stored as given
and not overwritten by the old value. -/
theorem claim_C8 (prev : ThicknessRecord) (pn pname entered : String)
    (inputs : List ℚ) :
    (entered = "" →
      (new_row_t pn pname (some prev) entered inputs).vendor = prev.vendor) ∧
    (entered ≠ "" →
      (new_row_t pn pname (some prev) entered inputs).vendor = entered) := by
  constructor <;> intro h <;> simp [new_row_t, resolveVendor, h]

theorem claim_C8_witness :
    (new_row_t ("A") ("N")
        (some { part_number := "A", part_name := "N", vendor := "oldVendor",
                measurements := [], mean := 0, stdev := 0 }) ("") []).vendor =
      "oldVendor" ∧
    (new_row_t ("A") ("N")
        (some { part_number := "A", part_name := "N", vendor := "oldVendor",
                measurements := [], mean := 0, stdev := 0 }) ("newVendor") []).vendor =
      "newVendor" :=
  ⟨(claim_C8 { part_number := "A", part_name := "N", vendor := "oldVendor",
               measurements := [], mean := 0, stdev := 0 } "A" "N" "" []).1 rfl,
   (claim_C8 { part_number := "A", part_name := "N", vendor := "oldVendor",
               measurements := [], mean := 0, stdev := 0 } "A" "N" "newVendor" []).2
     (by decide)⟩

/-- C6: whenever the BOM file is absent, unreadable, or lacks one of the
required 품번 / 품명.1 columns, `load_bom` reports a diagnostic and returns
the empty catalog; it is a total function, so no exception reaches the
caller. -/
theorem claim_C6 (src : BomSource) :
    (src = BomSource.missingFile ∨ src = BomSource.readFailure ∨
      (∃ hp hn rows, src = BomSource.sheet hp hn rows ∧
        (hp = false ∨ hn = false))) →
    load_bom src = (true, []) := by
  intro h
  rcases h with h | h | ⟨hp, hn, rows, rfl, hcol⟩
  · subst h; rfl
  · subst h; rfl
  · rcases hcol with rfl | rfl
    · simp [load_bom]
    · simp [load_bom]

theorem claim_C6_witness : load_bom BomSource.missingFile = (true, []) :=
  claim_C6 BomSource.missingFile (Or.inl rfl)

/-! Helper lemmas about the catalog loader. -/

lemma exists_split_cons_iff {α : Type} (P Q : α → Prop) (x : α) (l : List α) :
    (∃ pre post y, x :: l = pre ++ y :: post ∧ P y ∧ ∀ z ∈ pre, Q z) ↔
      P x ∨ (Q x ∧ ∃ pre post y, l = pre ++ y :: post ∧ P y ∧ ∀ z ∈ pre, Q z) := by
  constructor
  · rintro ⟨pre, post, y, hsplit, hy, hpre⟩
    cases pre with
    | nil =>
      simp only [List.nil_append, List.cons.injEq] at hsplit
      obtain ⟨rfl, -⟩ := hsplit
      exact Or.inl hy
    | cons z pre' =>
      simp only [List.cons_append, List.cons.injEq] at hsplit
      obtain ⟨rfl, hsplit'⟩ := hsplit
      exact Or.inr ⟨hpre x (List.mem_cons_self _ _), pre', post, y, hsplit', hy,
        fun z' hz' => hpre z' (List.mem_cons_of_mem _ hz')⟩
  · rintro (hx | ⟨hQ, pre, post, y, hsplit, hy, hpre⟩)
    · exact ⟨[], l, x, rfl, hx, by simp⟩
    · refine ⟨x :: pre, post, y, by rw [hsplit, List.cons_append], hy, ?_⟩
      intro z hz
      rcases List.mem_cons.mp hz with rfl | h
      · exact hQ
      · exact hpre z h

lemma mem_dropDuplicatesFirst (p n : String) (l : List (String × String)) :
    ∀ seen : List String,
      ((p, n) ∈ dropDuplicatesFirst seen l ↔
        p ∉ seen ∧ ∃ pre post y, l = pre ++ y :: post ∧ y = (p, n) ∧
          ∀ q ∈ pre, q.1 ≠ p) := by
  induction l with
  | nil =>
    intro seen
    simp only [dropDuplicatesFirst, List.not_mem_nil, false_iff]
    rintro ⟨-, pre, post, y, hsplit, -, -⟩
    cases pre <;> simp_all
  | cons head rest ih =>
    intro seen
    obtain ⟨a, b⟩ := head
    by_cases ha : a ∈ seen
    · have hred : dropDuplicatesFirst seen ((a, b) :: rest) =
          dropDuplicatesFirst seen rest := by
        simp [dropDuplicatesFirst, ha]
      rw [hred, ih seen]
      simp only [exists_split_cons_iff]
      constructor
      · rintro ⟨hp, hsplit⟩
        refine ⟨hp, Or.inr ⟨?_, hsplit⟩⟩
        intro hcontra
        exact hp (hcontra ▸ ha)
      · rintro ⟨hp, heq | ⟨-, hsplit⟩⟩
        · exfalso
          injection heq with h1 h2
          exact hp (h1 ▸ ha)
        · exact ⟨hp, hsplit⟩
    · have hred : dropDuplicatesFirst seen ((a, b) :: rest) =
          (a, b) :: dropDuplicatesFirst (a :: seen) rest := by
        simp [dropDuplicatesFirst, ha]
      rw [hred, List.mem_cons, ih (a :: seen)]
      simp only [exists_split_cons_iff]
      constructor
      · rintro (heq | ⟨hp, hsplit⟩)
        · injection heq with h1 h2
          subst h1
          subst h2
          exact ⟨ha, Or.inl rfl⟩
        · have hp' : p ∉ seen := fun hcontra => hp (List.mem_cons_of_mem a hcontra)
          have hpa : p ≠ a := fun hcontra => hp (by rw [hcontra]; exact List.mem_cons_self a seen)
          exact ⟨hp', Or.inr ⟨fun hcontra => hpa hcontra.symm, hsplit⟩⟩
      · rintro ⟨hp, heq | ⟨hq, hsplit⟩⟩
        · exact Or.inl heq.symm
        · refine Or.inr ⟨?_, hsplit⟩
          intro hcontra
          rcases List.mem_cons.mp hcontra with h | h
          · exact hq h.symm
          · exact hp h

lemma nodup_keys_dropDuplicatesFirst (l : List (String × String)) :
    ∀ seen : List String,
      ((dropDuplicatesFirst seen l).map Prod.fst).Nodup ∧
      ∀ p ∈ (dropDuplicatesFirst seen l).map Prod.fst, p ∉ seen := by
  induction l with
  | nil =>
    intro seen
    simp [dropDuplicatesFirst]
  | cons head rest ih =>
    intro seen
    obtain ⟨a, b⟩ := head
    by_cases ha : a ∈ seen
    · simpa [dropDuplicatesFirst, ha] using ih seen
    · have hred : dropDuplicatesFirst seen ((a, b) :: rest) =
          (a, b) :: dropDuplicatesFirst (a :: seen) rest := by
        simp [dropDuplicatesFirst, ha]
      rw [hred]
      constructor
      · simp only [List.map_cons, List.nodup_cons]
        exact ⟨fun hmem => ((ih (a :: seen)).2 a hmem) (List.mem_cons_self _ _),
          (ih (a :: seen)).1⟩
      · intro p hp
        simp only [List.map_cons, List.mem_cons] at hp
        rcases hp with rfl | hp'
        · exact ha
        · exact fun hcontra =>
            ((ih (a :: seen)).2 p hp') (List.mem_cons_of_mem a hcontra)

lemma load_bom_rows_mem (rows : List BomRow) (p n : String) :
    ((p, n) ∈ load_bom_rows rows ↔
      ∃ pre post row, rows = pre ++ row :: post ∧
        (row.part_no = some p ∧ row.name1_col = n) ∧
        ∀ r ∈ pre, r.part_no ≠ some p) := by
  rw [load_bom_rows, mem_dropDuplicatesFirst]
  simp only [List.not_mem_nil, not_false_eq_true, true_and]
  induction rows with
  | nil =>
    simp only [List.filterMap_nil]
    constructor
    · rintro ⟨pre, post, y, hsplit, -, -⟩
      cases pre <;> simp_all
    · rintro ⟨pre, post, row, hsplit, -, -⟩
      cases pre <;> simp_all
  | cons r rest ih =>
    cases hr : r.part_no with
    | none =>
      have hfm : (r :: rest).filterMap
            (fun row => row.part_no.map (fun q => (q, row.name1_col))) =
          rest.filterMap (fun row => row.part_no.map (fun q => (q, row.name1_col))) := by
        simp [List.filterMap_cons, hr]
      rw [hfm, ih]
      rw [exists_split_cons_iff (fun row => row.part_no = some p ∧ row.name1_col = n)
        (fun r => r.part_no ≠ some p) r rest]
      constructor
      · intro h
        exact Or.inr ⟨by simp [hr], h⟩
      · rintro (⟨hcontra, -⟩ | ⟨-, h⟩)
        · rw [hr] at hcontra
          exact absurd hcontra (by simp)
        · exact h
    | some a =>
      have hfm : (r :: rest).filterMap
            (fun row => row.part_no.map (fun q => (q, row.name1_col))) =
          (a, r.name1_col) ::
            rest.filterMap (fun row => row.part_no.map (fun q => (q, row.name1_col))) := by
        simp [List.filterMap_cons, hr]
      rw [hfm]
      rw [exists_split_cons_iff (fun y => y = (p, n)) (fun q => q.1 ≠ p)
        (a, r.name1_col) (rest.filterMap (fun row => row.part_no.map (fun q => (q, row.name1_col))))]
      rw [ih]
      rw [exists_split_cons_iff (fun row => row.part_no = some p ∧ row.name1_col = n)
        (fun r => r.part_no ≠ some p) r rest]
      rw [hr]
      constructor
      · rintro (heq | ⟨hne, hx⟩)
        · injection heq with h1 h2
          subst h1
          subst h2
          exact Or.inl ⟨rfl, rfl⟩
        · refine Or.inr ⟨?_, hx⟩
          intro hcontra
          exact hne (Option.some_inj.mp hcontra)
      · rintro (⟨hsome, hname⟩ | ⟨hne, hx⟩)
        · have h1 : a = p := Option.some_inj.mp hsome
          subst h1
          subst hname
          exact Or.inl rfl
        · refine Or.inr ⟨?_, hx⟩
          intro hcontra
          exact hne (congrArg some hcontra)

/-- C5: `load_bom` drops every row whose 품번 cell is missing, collapses
duplicate part numbers keeping the first-seen occurrence, and takes part
names from the specifically named secondary column 품명.1 (not the other
name-like column 품명): a pair `(p, n)` is in the catalog exactly when some
row of the sheet is the first row carrying part number `p` and `n` is that
row's 품명.1 value; moreover the emitted part numbers contain no
duplicates. -/
theorem claim_C5 (rows : List BomRow) (p n : String) :
    ((p, n) ∈ load_bom_rows rows ↔
      ∃ pre post row, rows = pre ++ row :: post ∧
        (row.part_no = some p ∧ row.name1_col = n) ∧
        ∀ r ∈ pre, r.part_no ≠ some p) ∧
    ((load_bom_rows rows).map Prod.fst).Nodup := by
  refine ⟨load_bom_rows_mem rows p n, ?_⟩
  unfold load_bom_rows
  exact (nodup_keys_dropDuplicatesFirst _ []).1

end FilmRollTool
